import Mathlib

/-!
Shallow embedding of `GDd.py`, a multilayer perceptron trained with
mini-batch gradient descent and an Adam-like adaptive update rule.
Matrices are embedded as a structure carrying the two dimensions and a
total entry function into `ℝ` (the idealisation of the numpy float64
arrays); sums over an axis become `Finset.sum` over `Finset.range`.
Dictionaries keyed by `"W1"`, `"dW2"`, ... become total functions from the
layer index.
-/

noncomputable section

open Classical

/-- Dense matrix of reals: the embedding of a 2-d `numpy.ndarray`.
Entries outside `[0, rows) × [0, cols)` are irrelevant junk. -/
structure Mat where
  rows : ℕ
  cols : ℕ
  entry : ℕ → ℕ → ℝ

instance : Inhabited Mat := ⟨⟨0, 0, fun _ _ => 0⟩⟩

/-- Matrix product, the embedding of `np.dot(A, B)`: the inner sum runs over
the columns of the left factor. -/
def matMul (A B : Mat) : Mat :=
  ⟨A.rows, B.cols, fun i j => ∑ k in Finset.range A.cols, A.entry i k * B.entry k j⟩

/-- Transpose, the embedding of `A.T`. -/
def matTr (A : Mat) : Mat :=
  ⟨A.cols, A.rows, fun i j => A.entry j i⟩

/-- Elementwise sum of two same-shape arrays. -/
def matAdd (A B : Mat) : Mat :=
  ⟨A.rows, A.cols, fun i j => A.entry i j + B.entry i j⟩

/-- Elementwise difference of two same-shape arrays. -/
def matSub (A B : Mat) : Mat :=
  ⟨A.rows, A.cols, fun i j => A.entry i j - B.entry i j⟩

/-- Scalar times matrix. -/
def matScale (c : ℝ) (A : Mat) : Mat :=
  ⟨A.rows, A.cols, fun i j => c * A.entry i j⟩

/-- Matrix divided by a scalar, elementwise. -/
def matDivScalar (A : Mat) (c : ℝ) : Mat :=
  ⟨A.rows, A.cols, fun i j => A.entry i j / c⟩

/-- Elementwise quotient of two same-shape arrays. -/
def matDivE (A B : Mat) : Mat :=
  ⟨A.rows, A.cols, fun i j => A.entry i j / B.entry i j⟩

/-- Elementwise square, the embedding of `np.power(A, 2)`. -/
def matSq (A : Mat) : Mat :=
  ⟨A.rows, A.cols, fun i j => A.entry i j ^ 2⟩

/-- Elementwise square root, the embedding of `np.sqrt(A)`. -/
def matSqrtE (A : Mat) : Mat :=
  ⟨A.rows, A.cols, fun i j => Real.sqrt (A.entry i j)⟩

/-- Add a scalar to every entry, the embedding of `A + eps`. -/
def matAddConst (A : Mat) (c : ℝ) : Mat :=
  ⟨A.rows, A.cols, fun i j => A.entry i j + c⟩

/-- Broadcast addition of a column vector `b` of shape `(n,1)` to a matrix
of shape `(n,m)`, the embedding of `Z + b` with numpy broadcasting. -/
def matAddBias (Z b : Mat) : Mat :=
  ⟨Z.rows, Z.cols, fun i j => Z.entry i j + b.entry i 0⟩

/-- Row-wise sum keeping dims, the embedding of
`np.sum(A, axis=1, keepdims=True)`. -/
def matRowSum (A : Mat) : Mat :=
  ⟨A.rows, 1, fun i _ => ∑ k in Finset.range A.cols, A.entry i k⟩

/-- Zero matrix of the same shape, the embedding of `np.zeros_like(A)`. -/
def zerosLike (A : Mat) : Mat :=
  ⟨A.rows, A.cols, fun _ _ => 0⟩

/-- Flattened list of the in-range entries of a matrix, row-major. -/
def matEntriesList (A : Mat) : List ℝ :=
  (List.range A.rows).flatMap fun i => (List.range A.cols).map fun j => A.entry i j

/-- Maximum over all entries, the embedding of `np.max(Z)` (for a nonempty
array; `np.max` of an empty array raises, here the junk value is `0`). -/
def npMax (Z : Mat) : ℝ :=
  match matEntriesList Z with
  | [] => 0
  | a :: l => l.foldl max a

/-- Maximum of column `j`, the per-column maximum the spec's softmax rule
subtracts (`max_col`). -/
def colMax (Z : Mat) (j : ℕ) : ℝ :=
  match (List.range Z.rows).map (fun i => Z.entry i j) with
  | [] => 0
  | a :: l => l.foldl max a

/-! ## Activation functions (`relu`, `relu_der`, `linear`, `linear_der`) -/

/-- Embedding of `relu(Z)`: `A = np.maximum(0, Z)`; the cache holds `Z`.
Returns `(A, cache)`. -/
def relu (Z : Mat) : Mat × Mat :=
  (⟨Z.rows, Z.cols, fun i j => max 0 (Z.entry i j)⟩, Z)

/-- Masked zeroing: copy of `dA` with entries where the mask holds set to
`0`; the embedding of `dZ = np.array(dA, copy=True); dZ[mask] = 0`. -/
def maskedZero (dA : Mat) (mask : ℕ → ℕ → Prop) : Mat :=
  ⟨dA.rows, dA.cols, fun i j => if mask i j then 0 else dA.entry i j⟩

/-- Embedding of `relu_der(dA, cache)`: `dZ` is a copy of `dA` with
`dZ[Z < 0] = 0`, where `Z` is the cached pre-activation. -/
def relu_der (dA cacheZ : Mat) : Mat :=
  maskedZero dA (fun i j => cacheZ.entry i j < 0)

/-- Embedding of the identity activation `linear(Z)`: `A = Z`, cache `Z`. -/
def linearAct (Z : Mat) : Mat × Mat :=
  (Z, Z)

/-- Embedding of `linear_der(dA, cache)`: a plain copy of `dA`. -/
def linear_der (dA _cacheZ : Mat) : Mat :=
  dA

/-! ## Softmax / cross-entropy head and one-hot encoding -/

/-- Effective index of numpy fancy indexing with a (possibly negative)
integer index into an axis of length `n`: a negative `v` wraps to `n + v`.
(Validity, `-n ≤ v < n`, is checked separately.) -/
def npIdx (v : ℤ) (n : ℕ) : ℤ :=
  if v < 0 then v + n else v

/-- Whether the integer `v` is a valid numpy index into an axis of length
`n`: `-n ≤ v < n`. Out-of-range indexing raises `IndexError`. -/
def npIdxValid (v : ℤ) (n : ℕ) : Prop :=
  -(n : ℤ) ≤ v ∧ v < n

instance (v : ℤ) (n : ℕ) : Decidable (npIdxValid v n) := by
  unfold npIdxValid; infer_instance

/-- Embedding of `one_hot(Y, num_classes)`: builds
`np.zeros((len(Y), num_classes))` and sets
`Y_one_hot[np.arange(len(Y)), Y] = 1` — row `i` of the result gets its `1`
at column `npIdx (Y i) num_classes`.  Returns `none` when some label is an
invalid index (numpy raises `IndexError`).  Rows are rational 0/1 lists so
the result is decidably comparable. -/
def one_hot (Y : List ℤ) (num_classes : ℕ) : Option (List (List ℚ)) :=
  if Y.all (fun v => decide (npIdxValid v num_classes)) then
    some (Y.map fun v =>
      (List.range num_classes).map fun c : ℕ =>
        if (c : ℤ) = npIdx v num_classes then 1 else 0)
  else
    none

/-- Entry `(i, j)` of the transposed one-hot matrix `one_hot(Y, n).T` used
inside the loss: `1` exactly when row `i` is the effective index of label
`j`. Lives in `ℝ` because it is multiplied into the real-valued loss. -/
def oneHotT (Y : List ℤ) (n : ℕ) (i j : ℕ) : ℝ :=
  if npIdx (Y.getD j 0) n = (i : ℤ) then 1 else 0

/-- Softmax activations as the source computes them:
`A = np.exp(Z - np.max(Z)) / np.sum(np.exp(Z - np.max(Z)), axis=0, keepdims=True)` —
the single global maximum `np.max(Z)` is subtracted from every entry. -/
def softmaxA (Z : Mat) : Mat :=
  ⟨Z.rows, Z.cols, fun i j =>
    Real.exp (Z.entry i j - npMax Z) /
      ∑ k in Finset.range Z.rows, Real.exp (Z.entry k j - npMax Z)⟩

/-- Modelled from the spec's words: the numerically-stable softmax rule
per column, `A[:,j] = exp(Z[:,j] - max_col) / sum(exp(Z[:,j] - max_col))`
where `max_col` is the maximum of column `j`. -/
def specSoftmaxPerColumn (Z : Mat) : Mat :=
  ⟨Z.rows, Z.cols, fun i j =>
    Real.exp (Z.entry i j - colMax Z j) /
      ∑ k in Finset.range Z.rows, Real.exp (Z.entry k j - colMax Z j)⟩

/-- Scalar cross-entropy loss of the source for pre-softmax `Z` against
integer labels `ys`: `-np.sum(Y_sm * np.log(A + 1e-9)) / A.shape[1]`,
where `Y_sm = one_hot(Y, num_classes).T` and `A = softmaxA Z`. -/
def celLoss (Z : Mat) (num_classes : ℕ) (ys : List ℤ) : ℝ :=
  -(∑ i in Finset.range Z.rows, ∑ j in Finset.range Z.cols,
      oneHotT ys num_classes i j * Real.log ((softmaxA Z).entry i j + 1e-9)) /
    (Z.cols : ℝ)

/-- Embedding of `softmax_cross_entropy_loss(Z, num_classes, Y)`: returns
the activations `A`, the cache (which stores exactly `A`), and the loss —
`none` when no labels are supplied (the `Y.shape[0] == 0` branch, reached
only via the empty default argument). -/
def softmax_cross_entropy_loss (Z : Mat) (num_classes : ℕ) (Y : Option (List ℤ)) :
    Mat × Mat × Option ℝ :=
  (softmaxA Z, softmaxA Z, Y.map (celLoss Z num_classes))

/-- Embedding of `softmax_cross_entropy_loss_der(Y, num_classes, cache)`:
`dZ = A - one_hot(Y).T`, entrywise over the cached activations. -/
def softmax_cross_entropy_loss_der (Y : List ℤ) (num_classes : ℕ) (cacheA : Mat) : Mat :=
  ⟨cacheA.rows, cacheA.cols, fun i j => cacheA.entry i j - oneHotT Y num_classes i j⟩

/-! ## Linear layer, layer composition, network forward/backward -/

/-- Activation selector: the reachable values of the `activation` string
argument (`"relu"` and `"linear"`; the `"sigmoid"`/`"tanh"` branches of
`layer_backward` call functions the source never defines and are
unreachable in this program). -/
inductive Act where
  | reluA : Act
  | linearA : Act

/-- Combined layer cache: `{"lin_cache": A_prev, "act_cache": Z}`. -/
def Cache : Type := Mat × Mat

instance : Inhabited Cache := ⟨(default, default)⟩

/-- Embedding of `linear_forward(A, W, b)`: `Z = np.dot(W, A) + b` with the
bias broadcast over columns; the cache holds the input `A`. -/
def linear_forward (A W b : Mat) : Mat × Mat :=
  (matAddBias (matMul W A) b, A)

/-- Embedding of `layer_forward(A_prev, W, b, activation)`: linear forward
then the selected activation; returns the activation and the combined
cache. -/
def layer_forward (A_prev W b : Mat) (activation : Act) : Mat × Cache :=
  let zc := linear_forward A_prev W b
  match activation with
  | Act.reluA => ((relu zc.1).1, (zc.2, (relu zc.1).2))
  | Act.linearA => ((linearAct zc.1).1, (zc.2, (linearAct zc.1).2))

/-- Per-layer parameters: the dictionary `{"W1": …, "b1": …, …}` as total
functions from the layer index (indices outside `1..L` are junk). -/
structure ParamSet where
  W : ℕ → Mat
  b : ℕ → Mat

/-- Per-layer gradients or moment accumulators: the dictionary
`{"dW1": …, "db1": …, …}` as total functions from the layer index. -/
structure GradSet where
  dW : ℕ → Mat
  db : ℕ → Mat

/-- Chain of `layer_forward` calls with ReLU, for layers `l, l+1, …` —
the `for l in range(1, L)` loop of `multi_layer_forward`, collecting the
caches in forward order. -/
def reluChain (p : ParamSet) : ℕ → ℕ → Mat → Mat × List Cache
  | _, 0, A => (A, [])
  | l, k + 1, A =>
    let step := layer_forward A (p.W l) (p.b l) Act.reluA
    let rest := reluChain p (l + 1) k step.1
    (rest.1, step.2 :: rest.2)

/-- Embedding of `multi_layer_forward(X, parameters)` for a network with
`L` layers: ReLU layers `1..L-1`, then the identity layer `L`; returns the
pre-softmax output and the ordered cache list. -/
def multi_layer_forward (L : ℕ) (X : Mat) (p : ParamSet) : Mat × List Cache :=
  let hidden := reluChain p 1 (L - 1) X
  let top := layer_forward hidden.1 (p.W L) (p.b L) Act.linearA
  (top.1, hidden.2 ++ [top.2])

/-- Embedding of `linear_backward(dZ, cache, W, b)`:
`dA_prev = np.dot(W.T, dZ)`, `dW = np.dot(dZ, A.T) / A.shape[1]`,
`db = np.sum(dZ, axis=1, keepdims=True) / A.shape[1]`. -/
def linear_backward (dZ cacheA W _b : Mat) : Mat × Mat × Mat :=
  (matMul (matTr W) dZ,
   matDivScalar (matMul dZ (matTr cacheA)) (cacheA.cols : ℝ),
   matDivScalar (matRowSum dZ) (cacheA.cols : ℝ))

/-- Embedding of `layer_backward(dA, cache, W, b, activation)`: the
activation derivative first, then `linear_backward`. -/
def layer_backward (dA : Mat) (cache : Cache) (W b : Mat) (activation : Act) :
    Mat × Mat × Mat :=
  match activation with
  | Act.reluA => linear_backward (relu_der dA cache.2) cache.1 W b
  | Act.linearA => linear_backward (linear_der dA cache.2) cache.1 W b

/-- Store the gradients of layer `l` into the gradients dictionary
(`gradients["dW"+str(l)] = …; gradients["db"+str(l)] = …`). -/
def setGrad (g : GradSet) (l : ℕ) (dWl dbl : Mat) : GradSet :=
  ⟨fun i => if i = l then dWl else g.dW i,
   fun i => if i = l then dbl else g.db i⟩

/-- Empty gradients dictionary (`gradients = {}`); every index is junk. -/
def emptyGrad : GradSet :=
  ⟨fun _ => default, fun _ => default⟩

/-- The `for l in reversed(range(1, L+1))` loop of `multi_layer_backward`:
processes layer `l` (counted down), the first processed layer with the
identity derivative and all later ones with ReLU. -/
def mlbAux (p : ParamSet) (caches : List Cache) : ℕ → Mat → Act → GradSet → GradSet
  | 0, _, _, g => g
  | l + 1, dA, act, g =>
    let step := layer_backward dA (caches.getD l default) (p.W (l + 1)) (p.b (l + 1)) act
    mlbAux p caches l step.1 Act.reluA (setGrad g (l + 1) step.2.1 step.2.2)

/-- Embedding of `multi_layer_backward(dAL, caches, parameters)`. -/
def multi_layer_backward (dAL : Mat) (caches : List Cache) (p : ParamSet) : GradSet :=
  mlbAux p caches caches.length dAL Act.linearA emptyGrad

/-! ## Moment accumulators and the update rule -/

/-- Embedding of `initialize_velocity(parameters)` for `L` layers: both
moment dictionaries hold `np.zeros_like` of the matching parameter, for
the keys `dW1..dWL, db1..dbL`. -/
def initialize_velocity (L : ℕ) (p : ParamSet) : GradSet × GradSet :=
  (⟨fun i => if 1 ≤ i ∧ i ≤ L then zerosLike (p.W i) else default,
    fun i => if 1 ≤ i ∧ i ≤ L then zerosLike (p.b i) else default⟩,
   ⟨fun i => if 1 ≤ i ∧ i ≤ L then zerosLike (p.W i) else default,
    fun i => if 1 ≤ i ∧ i ≤ L then zerosLike (p.b i) else default⟩)

/-- Embedding of `update_parameters_velocity(parameters, gradients, epoch,
velocity, svelocity, t, beta1, beta2, epsilon, learning_rate, decay_rate)`.
Updates layers `1..L` in place and returns
`(parameters, alpha, velocity, svelocity)`; note both moment updates decay
with `beta2`, the first-moment bias correction divides by
`1 - beta1 ** t`, and the parameter step multiplies by `learning_rate`
(`alpha` is computed but unused in the step). -/
def update_parameters_velocity (L : ℕ) (p : ParamSet) (g : GradSet) (epoch : ℕ)
    (velocity svelocity : GradSet) (t : ℕ)
    (beta1 beta2 epsilon learning_rate decay_rate : ℝ) :
    ParamSet × ℝ × GradSet × GradSet :=
  let alpha := learning_rate * (1 / (1 + decay_rate * (epoch : ℝ)))
  let v' : GradSet :=
    ⟨fun i => if 1 ≤ i ∧ i ≤ L then
        matAdd (matScale beta2 (velocity.dW i)) (matScale (1 - beta2) (g.dW i))
      else velocity.dW i,
     fun i => if 1 ≤ i ∧ i ≤ L then
        matAdd (matScale beta2 (velocity.db i)) (matScale (1 - beta2) (g.db i))
      else velocity.db i⟩
  let vel_cor : GradSet :=
    ⟨fun i => matDivScalar (v'.dW i) (1 - beta1 ^ t),
     fun i => matDivScalar (v'.db i) (1 - beta1 ^ t)⟩
  let sv' : GradSet :=
    ⟨fun i => if 1 ≤ i ∧ i ≤ L then
        matAdd (matScale beta2 (svelocity.dW i)) (matScale (1 - beta2) (matSq (g.dW i)))
      else svelocity.dW i,
     fun i => if 1 ≤ i ∧ i ≤ L then
        matAdd (matScale beta2 (svelocity.db i)) (matScale (1 - beta2) (matSq (g.db i)))
      else svelocity.db i⟩
  let svel_cor : GradSet :=
    ⟨fun i => matDivScalar (sv'.dW i) (1 - beta2 ^ t),
     fun i => matDivScalar (sv'.db i) (1 - beta2 ^ t)⟩
  let p' : ParamSet :=
    ⟨fun i => if 1 ≤ i ∧ i ≤ L then
        matSub (p.W i) (matDivE (matScale learning_rate (vel_cor.dW i))
          (matSqrtE (matAddConst (svel_cor.dW i) epsilon)))
      else p.W i,
     fun i => if 1 ≤ i ∧ i ≤ L then
        matSub (p.b i) (matDivE (matScale learning_rate (vel_cor.db i))
          (matSqrtE (matAddConst (svel_cor.db i) epsilon)))
      else p.b i⟩
  (p', alpha, v', sv')

/-! ## Concrete instances used by the witnesses -/

/-- Constant 1×1 matrix. -/
def cMat (x : ℝ) : Mat := ⟨1, 1, fun _ _ => x⟩

/-- Parameter set whose every layer is the constant 1×1 matrix `x`. -/
def cPS (x : ℝ) : ParamSet := ⟨fun _ => cMat x, fun _ => cMat x⟩

/-- Gradient set whose every layer is the constant 1×1 matrix `x`. -/
def cGS (x : ℝ) : GradSet := ⟨fun _ => cMat x, fun _ => cMat x⟩

/-! ## Training loop (`multi_layer_network`) -/

/-- Embedding of `np.split(X, k, axis=1)`: `k` equal contiguous column
blocks; raises `ValueError` (here `none`) unless `k` is positive and
divides the column count. -/
def npSplitCols (X : Mat) (k : ℕ) : Option (List Mat) :=
  if k ≠ 0 ∧ X.cols % k = 0 then
    some ((List.range k).map fun b =>
      ⟨X.rows, X.cols / k, fun i j => X.entry i (b * (X.cols / k) + j)⟩)
  else
    none

/-- Embedding of `np.split(Y, k, axis=1)` on the `(1, m)` integer label
array, with the labels carried as a list. -/
def npSplitLabels (Y : List ℤ) (k : ℕ) : Option (List (List ℤ)) :=
  if k ≠ 0 ∧ Y.length % k = 0 then
    some ((List.range k).map fun b =>
      (List.range (Y.length / k)).map fun j => Y.getD (b * (Y.length / k) + j) 0)
  else
    none

/-- Mutable state threaded through the training loop: the parameters, the
global step counter `t`, and the two moment dictionaries (which the update
rule mutates in place in the source). -/
structure LoopCore where
  params : ParamSet
  t : ℕ
  v : GradSet
  sv : GradSet

/-- One iteration of the inner `for jj in range(batch_length)` loop:
forward pass, softmax/loss, softmax derivative, backward pass, `t += 1`,
parameter update with epoch number `ii`. Returns the new core state and
this batch's training cost. -/
def batchStep (L num_classes : ℕ) (β1 β2 ε lr decay : ℝ) (ii : ℕ) (s : LoopCore)
    (Xb : Mat) (Yb : List ℤ) : LoopCore × ℝ :=
  let fwd := multi_layer_forward L Xb s.params
  let sm := softmax_cross_entropy_loss fwd.1 num_classes (some Yb)
  let cost := sm.2.2.getD 0
  let dZ := softmax_cross_entropy_loss_der Yb num_classes sm.2.1
  let grads := multi_layer_backward dZ fwd.2 s.params
  let t' := s.t + 1
  let upd := update_parameters_velocity L s.params grads ii s.v s.sv t' β1 β2 ε lr decay
  (⟨upd.1, t', upd.2.2.1, upd.2.2.2⟩, cost)

/-- The whole inner loop of one epoch, as a left fold over the batch list,
threading the core state and the last computed `cost` (a Python local that
survives the loop). -/
def runBatches (L num_classes : ℕ) (β1 β2 ε lr decay : ℝ) (ii : ℕ)
    (init : LoopCore × ℝ) (batches : List (Mat × List ℤ)) : LoopCore × ℝ :=
  batches.foldl (fun acc b => batchStep L num_classes β1 β2 ε lr decay ii acc.1 b.1 b.2) init

/-- Full loop state: the core, the surviving `cost` local, and the two
append-only cost lists. -/
structure LoopState where
  core : LoopCore
  lastCost : ℝ
  costs : List ℝ
  vcosts : List ℝ

/-- One epoch `ii`: all mini-batches in order, then one full forward+loss
pass over the whole validation set (touching no parameters), then one
append to each cost list — the training entry being the `cost` left by the
last mini-batch. -/
def epochStep (L num_classes : ℕ) (β1 β2 ε lr decay : ℝ) (B0 : Mat) (valY : List ℤ)
    (batches : List (Mat × List ℤ)) (ii : ℕ) (s : LoopState) : LoopState :=
  let rb := runBatches L num_classes β1 β2 ε lr decay ii (s.core, s.lastCost) batches
  let vfwd := multi_layer_forward L B0 rb.1.params
  let vsm := softmax_cross_entropy_loss vfwd.1 num_classes (some valY)
  ⟨rb.1, rb.2, s.costs ++ [rb.2], s.vcosts ++ [vsm.2.2.getD 0]⟩

/-- The outer `for ii in range(num_iterations)` loop: first argument is
the number of epochs still to run, second the current epoch index. -/
def runEpochs (L num_classes : ℕ) (β1 β2 ε lr decay : ℝ) (B0 : Mat) (valY : List ℤ)
    (batches : List (Mat × List ℤ)) : ℕ → ℕ → LoopState → LoopState
  | 0, _, s => s
  | e + 1, ii, s =>
    runEpochs L num_classes β1 β2 ε lr decay B0 valY batches e (ii + 1)
      (epochStep L num_classes β1 β2 ε lr decay B0 valY batches ii s)

/-- Loop state at entry of the outer loop: parameters `init`, `t = 0`,
zero moments, empty cost lists. -/
def mlnInitState (L : ℕ) (init : ParamSet) : LoopState :=
  ⟨⟨init, 0, (initialize_velocity L init).1, (initialize_velocity L init).2⟩, 0, [], []⟩

/-- Embedding of `multi_layer_network(X, Y, validation_data,
validation_label, net_dims, num_iterations, learning_rate, decay_rate,
batch_size)` for a network of `L` layers. The He initialization
(`np.random.normal` under seed 0) is not modelled: the initial parameters
are the argument `init`; everything after initialization is faithful,
with `num_classes = 10`, `beta1 = 0.9`, `beta2 = 0.999`,
`epsilon = 1e-8` as in the source. Returns `none` when `np.split` raises
at partition time — before any forward pass or parameter update — and
otherwise `(costs, parameters, vcosts)`. -/
def multi_layer_network (X : Mat) (Y : List ℤ) (validation_data : Mat)
    (validation_label : List ℤ) (init : ParamSet) (L : ℕ) (num_iterations : ℕ)
    (learning_rate decay_rate : ℝ) (batch_size : ℕ) :
    Option (List ℝ × ParamSet × List ℝ) :=
  match npSplitCols X batch_size with
  | none => none
  | some Xb =>
    match npSplitLabels Y batch_size with
    | none => none
    | some Yb =>
      let final := runEpochs L 10 0.9 0.999 1e-8 learning_rate decay_rate
        validation_data validation_label (Xb.zip Yb) num_iterations 0
        (mlnInitState L init)
      some (final.costs, final.core.params, final.vcosts)

/-- Loop state reached after the first `k` epochs of the training run of
`multi_layer_network` (with its hard-coded hyperparameters). -/
def mlnStateAt (L : ℕ) (lr decay : ℝ) (B0 : Mat) (valY : List ℤ)
    (batches : List (Mat × List ℤ)) (init : ParamSet) (k : ℕ) : LoopState :=
  runEpochs L 10 0.9 0.999 1e-8 lr decay B0 valY batches k 0 (mlnInitState L init)

/-- The batch phase of epoch `ii` of the training run, started from loop
state `s`: runs the given batches and yields the resulting core state plus
the cost of the last processed batch. -/
def epochBatchRun (L : ℕ) (lr decay : ℝ) (ii : ℕ) (s : LoopState)
    (batches : List (Mat × List ℤ)) : LoopCore × ℝ :=
  runBatches L 10 0.9 0.999 1e-8 lr decay ii (s.core, s.lastCost) batches

/-- Gradient set whose every entry is zero, shaped like the parameters:
the all-zero gradients of C6. -/
def zeroGrads (p : ParamSet) : GradSet :=
  ⟨fun i => zerosLike (p.W i), fun i => zerosLike (p.b i)⟩

/-- Concrete 1×1 zero matrix used to instantiate the training loop. -/
def wMat : Mat := ⟨1, 1, fun _ _ => 0⟩

/-! ## Claim C2: the two softmax stabilizations agree -/

/-- Subtracting any constant `c` from a column before exponentiating does
not change the softmax quotient: the `exp (-c)` factors cancel. -/
theorem softmax_shift_invariant (Z : Mat) (c : ℝ) (i j : ℕ) :
    Real.exp (Z.entry i j - c) /
        ∑ k in Finset.range Z.rows, Real.exp (Z.entry k j - c) =
      Real.exp (Z.entry i j) /
        ∑ k in Finset.range Z.rows, Real.exp (Z.entry k j) := by
  have he : (Real.exp c)⁻¹ ≠ 0 := inv_ne_zero (Real.exp_ne_zero c)
  have h1 : ∀ x : ℝ, Real.exp (x - c) = Real.exp x * (Real.exp c)⁻¹ := fun x => by
    rw [Real.exp_sub, div_eq_mul_inv]
  simp only [h1]
  rw [← Finset.sum_mul, mul_div_mul_right _ _ he]

/-- C2: the activations returned by `softmax_cross_entropy_loss` (which
subtracts the single global maximum `np.max(Z)`) coincide entrywise, and
in shape, with the spec's per-column stabilized softmax rule; and the
returned cache stores exactly `A`. -/
theorem claim_C2_softmax_per_column (Z : Mat) (num_classes : ℕ) (Y : Option (List ℤ))
    (i j : ℕ) :
    (softmax_cross_entropy_loss Z num_classes Y).1.rows = (specSoftmaxPerColumn Z).rows ∧
    (softmax_cross_entropy_loss Z num_classes Y).1.cols = (specSoftmaxPerColumn Z).cols ∧
    (softmax_cross_entropy_loss Z num_classes Y).1.entry i j =
      (specSoftmaxPerColumn Z).entry i j ∧
    (softmax_cross_entropy_loss Z num_classes Y).2.1 =
      (softmax_cross_entropy_loss Z num_classes Y).1 := by
  refine ⟨rfl, rfl, ?_, rfl⟩
  show (softmaxA Z).entry i j = (specSoftmaxPerColumn Z).entry i j
  unfold softmaxA specSoftmaxPerColumn
  simp only
  rw [softmax_shift_invariant Z (npMax Z) i j, softmax_shift_invariant Z (colMax Z j) i j]

/-! ## Claims C4 and C10: `one_hot` shape and index semantics -/

/-- C4 counterexample: for labels `[0, 1]` with `num_classes = 3` the code's
`one_hot` returns a matrix with 2 rows (the batch size), not the claimed
`num_classes = 3` rows: the result is the transpose of the claimed shape. -/
theorem claim_C4_one_hot_counterexample :
    (one_hot [(0 : ℤ), 1] 3).map List.length ≠ some 3 := by decide

/-- C4 (amended): for in-range labels, `one_hot` succeeds and returns the
transpose of the claimed matrix — shape `(batch_m, num_classes)`, with row
`i` holding `1` exactly at column `Y i` and `0` elsewhere. -/
theorem claim_C4_one_hot (Y : List ℤ) (n : ℕ)
    (hv : ∀ v ∈ Y, 0 ≤ v ∧ v < (n : ℤ)) :
    ∃ M, one_hot Y n = some M ∧
      M.length = Y.length ∧
      (∀ r ∈ M, r.length = n) ∧
      ∀ i, i < Y.length → ∀ c, c < n →
        (M.getD i []).getD c 0 = if (c : ℤ) = Y.getD i 0 then 1 else 0 := by
  have hall : Y.all (fun v => decide (npIdxValid v n)) = true := by
    rw [List.all_eq_true]
    intro v hvmem
    rcases hv v hvmem with ⟨h0, h1⟩
    simp only [decide_eq_true_eq, npIdxValid]
    omega
  refine ⟨_, by rw [one_hot, if_pos hall], by simp, ?_, ?_⟩
  · intro r hr
    rcases List.mem_map.mp hr with ⟨v, _, rfl⟩
    simp
  · intro i hi c hc
    have hmapped : i < (Y.map (fun v =>
        (List.range n).map fun c : ℕ =>
          if (c : ℤ) = npIdx v n then (1 : ℚ) else 0)).length := by
      simpa using hi
    rw [List.getD_eq_getElem _ _ hmapped, List.getElem_map]
    have hcr : c < ((List.range n).map fun k : ℕ =>
        if (k : ℤ) = npIdx (Y[i]) n then (1 : ℚ) else 0).length := by
      simpa using hc
    rw [List.getD_eq_getElem _ _ hcr, List.getElem_map]
    have hY : Y.getD i 0 = Y[i] := List.getD_eq_getElem _ _ hi
    have hv' := hv (Y[i]) (List.getElem_mem hi)
    have hnpi : npIdx (Y[i]) n = Y[i] := by
      unfold npIdx
      rw [if_neg (not_lt.mpr hv'.1)]
    rw [hY]
    simp [hnpi]

/-- Concrete instantiation of the amended C4 at labels `[0, 2]` with three
classes. -/
theorem claim_C4_one_hot_witness :
    ∃ M, one_hot [(0 : ℤ), 2] 3 = some M ∧
      M.length = ([(0 : ℤ), 2] : List ℤ).length ∧
      (∀ r ∈ M, r.length = 3) ∧
      ∀ i, i < ([(0 : ℤ), 2] : List ℤ).length → ∀ c, c < 3 →
        (M.getD i []).getD c 0 =
          if (c : ℤ) = ([(0 : ℤ), 2] : List ℤ).getD i 0 then 1 else 0 :=
  claim_C4_one_hot [(0 : ℤ), 2] 3 (by decide)

/-- C10 counterexample: the label `-3` with `num_classes = 2` makes
`one_hot` fail (numpy `IndexError`) even though no label is `≥ 2`: the
claim's clause that `one_hot` fails ONLY when some label is at least
`num_classes` is false — it also fails when a label is below
`-num_classes`. -/
theorem claim_C10_one_hot_counterexample :
    one_hot [(-3 : ℤ)] 2 = none ∧ ¬∃ v ∈ [(-3 : ℤ)], (2 : ℤ) ≤ v := by decide

/-- C10 (amended): `one_hot` fails exactly when some label is `≥ n` or
`< -n`; for any in-range labels it succeeds, and a negative label `v`
silently places that sample's `1` at the wrapped column `n + v`, every
other in-range column holding `0`. -/
theorem claim_C10_one_hot_negative (Y : List ℤ) (n : ℕ) :
    (one_hot Y n = none ↔ ∃ v ∈ Y, (n : ℤ) ≤ v ∨ v < -(n : ℤ)) ∧
    ((∀ v ∈ Y, npIdxValid v n) →
      ∃ M, one_hot Y n = some M ∧ M.length = Y.length ∧
        ∀ i, i < Y.length → Y.getD i 0 < 0 →
          (∀ c : ℕ, c < n → ((c : ℤ) = (n : ℤ) + Y.getD i 0 →
              (M.getD i []).getD c 0 = 1) ∧
            ((c : ℤ) ≠ (n : ℤ) + Y.getD i 0 →
              (M.getD i []).getD c 0 = 0))) := by
  constructor
  · rw [one_hot]
    by_cases hall : Y.all (fun v => decide (npIdxValid v n)) = true
    · rw [if_pos hall]
      rw [List.all_eq_true] at hall
      simp only [reduceCtorEq, false_iff]
      rintro ⟨v, hvmem, hbad⟩
      have hvv := hall v hvmem
      simp only [decide_eq_true_eq, npIdxValid] at hvv
      rcases hbad with h | h
      · omega
      · omega
    · rw [if_neg hall]
      rw [List.all_eq_true] at hall
      push_neg at hall
      rcases hall with ⟨v, hvmem, hvbad⟩
      simp only [ne_eq, decide_eq_true_eq, npIdxValid] at hvbad
      have hvor : (n : ℤ) ≤ v ∨ v < -(n : ℤ) := by
        rcases not_and_or.mp hvbad with h | h
        · exact Or.inr (by omega)
        · exact Or.inl (by omega)
      exact iff_of_true rfl ⟨v, hvmem, hvor⟩
  · intro hv
    have hall : Y.all (fun v => decide (npIdxValid v n)) = true := by
      rw [List.all_eq_true]
      intro v hvmem
      simpa using hv v hvmem
    refine ⟨_, by rw [one_hot, if_pos hall], by simp, ?_⟩
    intro i hi hneg c hc
    have hmapped : i < (Y.map (fun v =>
        (List.range n).map fun c : ℕ =>
          if (c : ℤ) = npIdx v n then (1 : ℚ) else 0)).length := by
      simpa using hi
    rw [List.getD_eq_getElem _ _ hmapped, List.getElem_map]
    have hcr : c < ((List.range n).map fun k : ℕ =>
        if (k : ℤ) = npIdx (Y[i]) n then (1 : ℚ) else 0).length := by
      simpa using hc
    rw [List.getD_eq_getElem _ _ hcr, List.getElem_map]
    have hY : Y.getD i 0 = Y[i] := List.getD_eq_getElem _ _ hi
    rw [hY] at hneg
    have hnpi : npIdx (Y[i]) n = (n : ℤ) + Y[i] := by
      unfold npIdx
      rw [if_pos hneg]
      ring
    constructor
    · intro hceq
      rw [hY] at hceq
      simp only [List.getElem_range, hnpi]
      rw [if_pos hceq]
    · intro hcne
      rw [hY] at hcne
      simp only [List.getElem_range, hnpi]
      rw [if_neg hcne]

/-- Concrete instantiation of the amended C10: the label `-3` with two
classes fails, and for labels `[-1, 0]` the `-1` wraps to column `1`. -/
theorem claim_C10_one_hot_negative_witness :
    one_hot [(-3 : ℤ)] 2 = none ∧
    (∃ M, one_hot [(-1 : ℤ), 0] 2 = some M ∧
      M.length = ([(-1 : ℤ), 0] : List ℤ).length ∧
      ∀ i, i < ([(-1 : ℤ), 0] : List ℤ).length →
        ([(-1 : ℤ), 0] : List ℤ).getD i 0 < 0 →
        (∀ c : ℕ, c < 2 →
          (((c : ℤ) = (2 : ℤ) + ([(-1 : ℤ), 0] : List ℤ).getD i 0 →
            (M.getD i []).getD c 0 = 1)) ∧
          ((c : ℤ) ≠ (2 : ℤ) + ([(-1 : ℤ), 0] : List ℤ).getD i 0 →
            (M.getD i []).getD c 0 = 0))) :=
  ⟨(claim_C10_one_hot_negative [(-3 : ℤ)] 2).1.mpr ⟨-3, by decide, Or.inr (by norm_num)⟩,
   (claim_C10_one_hot_negative [(-1 : ℤ), 0] 2).2 (by decide)⟩

/-! ## Claim C7: `relu_der` semantics -/

/-- C7: `relu_der` returns `dA` elementwise, except entries are zeroed
exactly where the cached `Z` is negative; where `Z` is exactly zero the
value of `dA` passes through unchanged, and the shape of `dA` is kept. -/
theorem claim_C7_relu_der (dA cacheZ : Mat) (i j : ℕ) :
    (relu_der dA cacheZ).rows = dA.rows ∧
    (relu_der dA cacheZ).cols = dA.cols ∧
    (cacheZ.entry i j < 0 → (relu_der dA cacheZ).entry i j = 0) ∧
    (0 ≤ cacheZ.entry i j → (relu_der dA cacheZ).entry i j = dA.entry i j) ∧
    (cacheZ.entry i j = 0 → (relu_der dA cacheZ).entry i j = dA.entry i j) := by
  refine ⟨rfl, rfl, ?_, ?_, ?_⟩
  · intro h
    simp [relu_der, maskedZero, h]
  · intro h
    simp [relu_der, maskedZero, not_lt.mpr h]
  · intro h
    simp [relu_der, maskedZero, h]

/-- Concrete instantiation of C7: a 1×1 gradient with value 5 against a
cached pre-activation of -1, of 0 and of 2. -/
theorem claim_C7_relu_der_witness :
    (relu_der ⟨1, 1, fun _ _ => 5⟩ ⟨1, 1, fun _ _ => -1⟩).entry 0 0 = 0 ∧
    (relu_der ⟨1, 1, fun _ _ => 5⟩ ⟨1, 1, fun _ _ => 0⟩).entry 0 0 = 5 ∧
    (relu_der ⟨1, 1, fun _ _ => 5⟩ ⟨1, 1, fun _ _ => 2⟩).entry 0 0 = 5 := by
  refine ⟨?_, ?_, ?_⟩
  · exact (claim_C7_relu_der ⟨1, 1, fun _ _ => 5⟩ ⟨1, 1, fun _ _ => -1⟩ 0 0).2.2.1
      (by norm_num)
  · exact (claim_C7_relu_der ⟨1, 1, fun _ _ => 5⟩ ⟨1, 1, fun _ _ => 0⟩ 0 0).2.2.2.2
      (by norm_num)
  · exact (claim_C7_relu_der ⟨1, 1, fun _ _ => 5⟩ ⟨1, 1, fun _ _ => 2⟩ 0 0).2.2.2.1
      (by norm_num)

/-! ## Claim C3: `linear_backward` formulas -/

/-- C3: `linear_backward` returns exactly `dA_prev = Wᵗ·dZ`,
`dW = (dZ·A_prevᵗ)/m` and `db = rowwise_sum(dZ)/m`, with `m` the column
count of the cached `A_prev`; shapes as for the well-formed setting
`dZ : (n,m)`, `A_prev : (p,m)`, `W : (n,p)`. -/
theorem claim_C3_linear_backward (dZ A W b : Mat) (hm : dZ.cols = A.cols) (i j : ℕ) :
    ((linear_backward dZ A W b).1.rows = W.cols ∧
      (linear_backward dZ A W b).1.cols = dZ.cols) ∧
    (linear_backward dZ A W b).1.entry i j =
      ∑ k in Finset.range W.rows, W.entry k i * dZ.entry k j ∧
    ((linear_backward dZ A W b).2.1.rows = dZ.rows ∧
      (linear_backward dZ A W b).2.1.cols = A.rows) ∧
    (linear_backward dZ A W b).2.1.entry i j =
      (∑ k in Finset.range A.cols, dZ.entry i k * A.entry j k) / (A.cols : ℝ) ∧
    ((linear_backward dZ A W b).2.2.rows = dZ.rows ∧
      (linear_backward dZ A W b).2.2.cols = 1) ∧
    (linear_backward dZ A W b).2.2.entry i 0 =
      (∑ k in Finset.range A.cols, dZ.entry i k) / (A.cols : ℝ) := by
  refine ⟨⟨rfl, rfl⟩, rfl, ⟨rfl, rfl⟩, ?_, ⟨rfl, rfl⟩, ?_⟩
  · show (∑ k in Finset.range dZ.cols, dZ.entry i k * (matTr A).entry k j) / (A.cols : ℝ) = _
    rw [hm]
    rfl
  · show (∑ k in Finset.range dZ.cols, dZ.entry i k) / (A.cols : ℝ) = _
    rw [hm]

/-- Concrete instantiation of C3 on 1×1 matrices. -/
theorem claim_C3_linear_backward_witness :
    ((linear_backward ⟨1, 1, fun _ _ => 4⟩ ⟨1, 1, fun _ _ => 3⟩ ⟨1, 1, fun _ _ => 2⟩
        ⟨1, 1, fun _ _ => 1⟩).1.rows = (⟨1, 1, fun _ _ => 2⟩ : Mat).cols ∧
      (linear_backward ⟨1, 1, fun _ _ => 4⟩ ⟨1, 1, fun _ _ => 3⟩ ⟨1, 1, fun _ _ => 2⟩
        ⟨1, 1, fun _ _ => 1⟩).1.cols = (⟨1, 1, fun _ _ => 4⟩ : Mat).cols) ∧
    (linear_backward ⟨1, 1, fun _ _ => 4⟩ ⟨1, 1, fun _ _ => 3⟩ ⟨1, 1, fun _ _ => 2⟩
        ⟨1, 1, fun _ _ => 1⟩).1.entry 0 0 =
      ∑ k in Finset.range (⟨1, 1, fun _ _ => 2⟩ : Mat).rows,
        (⟨1, 1, fun _ _ => 2⟩ : Mat).entry k 0 * (⟨1, 1, fun _ _ => 4⟩ : Mat).entry k 0 ∧
    ((linear_backward ⟨1, 1, fun _ _ => 4⟩ ⟨1, 1, fun _ _ => 3⟩ ⟨1, 1, fun _ _ => 2⟩
        ⟨1, 1, fun _ _ => 1⟩).2.1.rows = (⟨1, 1, fun _ _ => 4⟩ : Mat).rows ∧
      (linear_backward ⟨1, 1, fun _ _ => 4⟩ ⟨1, 1, fun _ _ => 3⟩ ⟨1, 1, fun _ _ => 2⟩
        ⟨1, 1, fun _ _ => 1⟩).2.1.cols = (⟨1, 1, fun _ _ => 3⟩ : Mat).rows) ∧
    (linear_backward ⟨1, 1, fun _ _ => 4⟩ ⟨1, 1, fun _ _ => 3⟩ ⟨1, 1, fun _ _ => 2⟩
        ⟨1, 1, fun _ _ => 1⟩).2.1.entry 0 0 =
      (∑ k in Finset.range (⟨1, 1, fun _ _ => 3⟩ : Mat).cols,
        (⟨1, 1, fun _ _ => 4⟩ : Mat).entry 0 k * (⟨1, 1, fun _ _ => 3⟩ : Mat).entry 0 k) /
        ((⟨1, 1, fun _ _ => 3⟩ : Mat).cols : ℝ) ∧
    ((linear_backward ⟨1, 1, fun _ _ => 4⟩ ⟨1, 1, fun _ _ => 3⟩ ⟨1, 1, fun _ _ => 2⟩
        ⟨1, 1, fun _ _ => 1⟩).2.2.rows = (⟨1, 1, fun _ _ => 4⟩ : Mat).rows ∧
      (linear_backward ⟨1, 1, fun _ _ => 4⟩ ⟨1, 1, fun _ _ => 3⟩ ⟨1, 1, fun _ _ => 2⟩
        ⟨1, 1, fun _ _ => 1⟩).2.2.cols = 1) ∧
    (linear_backward ⟨1, 1, fun _ _ => 4⟩ ⟨1, 1, fun _ _ => 3⟩ ⟨1, 1, fun _ _ => 2⟩
        ⟨1, 1, fun _ _ => 1⟩).2.2.entry 0 0 =
      (∑ k in Finset.range (⟨1, 1, fun _ _ => 3⟩ : Mat).cols,
        (⟨1, 1, fun _ _ => 4⟩ : Mat).entry 0 k) / ((⟨1, 1, fun _ _ => 3⟩ : Mat).cols : ℝ) :=
  claim_C3_linear_backward ⟨1, 1, fun _ _ => 4⟩ ⟨1, 1, fun _ _ => 3⟩ ⟨1, 1, fun _ _ => 2⟩
    ⟨1, 1, fun _ _ => 1⟩ rfl 0 0

/-! ## Claim C5: sign of the cross-entropy loss -/

/-- Softmax activations are nonnegative everywhere. -/
theorem softmaxA_nonneg (Z : Mat) (i j : ℕ) : 0 ≤ (softmaxA Z).entry i j :=
  div_nonneg (Real.exp_pos _).le (Finset.sum_nonneg fun _ _ => (Real.exp_pos _).le)

/-- In-range softmax activations are at most one. -/
theorem softmaxA_le_one (Z : Mat) (i j : ℕ) (hi : i < Z.rows) :
    (softmaxA Z).entry i j ≤ 1 := by
  have hmem : i ∈ Finset.range Z.rows := Finset.mem_range.mpr hi
  have hpos : 0 < ∑ k in Finset.range Z.rows, Real.exp (Z.entry k j - npMax Z) :=
    Finset.sum_pos (fun k _ => Real.exp_pos _) ⟨i, hmem⟩
  have hle : Real.exp (Z.entry i j - npMax Z) ≤
      ∑ k in Finset.range Z.rows, Real.exp (Z.entry k j - npMax Z) :=
    Finset.single_le_sum (fun k _ => (Real.exp_pos (Z.entry k j - npMax Z)).le) hmem
  exact (div_le_one hpos).mpr hle

/-- C5 counterexample: for `Z = [[0]]`, one class and label `[0]`, the
softmax probability is exactly `1`, so the summand is
`log (1 + 1e-9) > 0` and the returned loss is strictly negative: the
additive `ε` does push the loss below zero. -/
theorem claim_C5_loss_negative_counterexample :
    celLoss ⟨1, 1, fun _ _ => 0⟩ 1 [0] < 0 := by
  have hnp : npMax ⟨1, 1, fun _ _ => 0⟩ = 0 := rfl
  have hA : (softmaxA ⟨1, 1, fun _ _ => 0⟩).entry 0 0 = 1 := by
    simp [softmaxA, hnp, Finset.sum_range_one, Real.exp_zero]
  have hlog : 0 < Real.log (1 + 1e-9) := Real.log_pos (by norm_num)
  have hloss : celLoss ⟨1, 1, fun _ _ => 0⟩ 1 [0] = -Real.log (1 + 1e-9) := by
    simp [celLoss, Finset.sum_range_one, hA, oneHotT, npIdx]
  rw [hloss]
  linarith

/-- C5 (amended): for a label vector matching the column count, with
values in `[0, num_classes)` and `num_classes` equal to the row count of
`Z`, the loss returned by `softmax_cross_entropy_loss` is bounded below by
`-log (1 + 1e-9)` (about `-1e-9`), not by `0`: each true-class probability
is at most `1`, so each summand `log (A + ε)` is at most `log (1 + ε)`. -/
theorem claim_C5_loss_lower_bound (Z : Mat) (n : ℕ) (Y : List ℤ)
    (hn : n = Z.rows) (hm : Y.length = Z.cols)
    (hv : ∀ v ∈ Y, 0 ≤ v ∧ v < (n : ℤ)) :
    -Real.log (1 + 1e-9) ≤ celLoss Z n Y := by
  have hlogpos : 0 < Real.log (1 + 1e-9) := Real.log_pos (by norm_num)
  have hlab : ∀ j, j < Z.cols → 0 ≤ Y.getD j 0 ∧ Y.getD j 0 < (n : ℤ) := by
    intro j hj
    have hjY : j < Y.length := by rw [hm]; exact hj
    have hgd : Y.getD j 0 = Y[j] := List.getD_eq_getElem _ _ hjY
    rw [hgd]
    exact hv (Y[j]) (List.getElem_mem hjY)
  have htlt : ∀ j, j < Z.cols → (Y.getD j 0).toNat < Z.rows := by
    intro j hj
    have := hlab j hj
    omega
  have hinner : ∀ j, j < Z.cols →
      (∑ i in Finset.range Z.rows,
        oneHotT Y n i j * Real.log ((softmaxA Z).entry i j + 1e-9)) =
      Real.log ((softmaxA Z).entry (Y.getD j 0).toNat j + 1e-9) := by
    intro j hj
    have hvj := hlab j hj
    have hnp : npIdx (Y.getD j 0) n = Y.getD j 0 := by
      unfold npIdx
      rw [if_neg (not_lt.mpr hvj.1)]
    have htn : (((Y.getD j 0).toNat : ℕ) : ℤ) = Y.getD j 0 := Int.toNat_of_nonneg hvj.1
    have hterm : ∀ i ∈ Finset.range Z.rows,
        oneHotT Y n i j * Real.log ((softmaxA Z).entry i j + 1e-9) =
        if i = (Y.getD j 0).toNat then Real.log ((softmaxA Z).entry i j + 1e-9)
        else 0 := by
      intro i _
      unfold oneHotT
      rw [hnp]
      by_cases hcase : Y.getD j 0 = (i : ℤ)
      · rw [if_pos hcase, if_pos (by omega), one_mul]
      · rw [if_neg hcase, if_neg (by omega), zero_mul]
    rw [Finset.sum_congr rfl hterm,
      Finset.sum_ite_eq' (Finset.range Z.rows) ((Y.getD j 0).toNat),
      if_pos (Finset.mem_range.mpr (htlt j hj))]
  have hS : (∑ i in Finset.range Z.rows, ∑ j in Finset.range Z.cols,
      oneHotT Y n i j * Real.log ((softmaxA Z).entry i j + 1e-9)) =
      ∑ j in Finset.range Z.cols,
        Real.log ((softmaxA Z).entry (Y.getD j 0).toNat j + 1e-9) := by
    rw [Finset.sum_comm]
    exact Finset.sum_congr rfl fun j hj => hinner j (Finset.mem_range.mp hj)
  have hsumle : (∑ j in Finset.range Z.cols,
      Real.log ((softmaxA Z).entry (Y.getD j 0).toNat j + 1e-9)) ≤
      (Z.cols : ℝ) * Real.log (1 + 1e-9) := by
    have hperm : ∀ j ∈ Finset.range Z.cols,
        Real.log ((softmaxA Z).entry (Y.getD j 0).toNat j + 1e-9) ≤
          Real.log (1 + 1e-9) := by
      intro j hj
      have hj' := Finset.mem_range.mp hj
      have hA0 : 0 ≤ (softmaxA Z).entry (Y.getD j 0).toNat j := softmaxA_nonneg Z _ j
      have hA1 : (softmaxA Z).entry (Y.getD j 0).toNat j ≤ 1 :=
        softmaxA_le_one Z _ j (htlt j hj')
      exact Real.log_le_log (by linarith) (by linarith)
    calc (∑ j in Finset.range Z.cols,
        Real.log ((softmaxA Z).entry (Y.getD j 0).toNat j + 1e-9)) ≤
          ∑ _j in Finset.range Z.cols, Real.log (1 + 1e-9) :=
        Finset.sum_le_sum hperm
      _ = (Z.cols : ℝ) * Real.log (1 + 1e-9) := by
        rw [Finset.sum_const, Finset.card_range, nsmul_eq_mul]
  unfold celLoss
  rw [hS]
  rcases Nat.eq_zero_or_pos Z.cols with hc0 | hcpos
  · rw [hc0]
    simp only [Finset.range_zero, Finset.sum_empty, neg_zero, Nat.cast_zero, div_zero]
    linarith
  · have hm0 : (0 : ℝ) < (Z.cols : ℝ) := by exact_mod_cast hcpos
    rw [neg_div]
    have hdiv : (∑ j in Finset.range Z.cols,
        Real.log ((softmaxA Z).entry (Y.getD j 0).toNat j + 1e-9)) / (Z.cols : ℝ) ≤
        Real.log (1 + 1e-9) := by
      rw [div_le_iff₀ hm0]
      linarith [hsumle]
    linarith [hdiv]

/-- Concrete instantiation of the amended C5: one class, `Z = [[0]]`,
label `[0]`. -/
theorem claim_C5_loss_lower_bound_witness :
    -Real.log (1 + 1e-9) ≤ celLoss (cMat 0) 1 [0] :=
  claim_C5_loss_lower_bound (cMat 0) 1 [0] rfl rfl (by decide)

/-! ## Claim C1: the adaptive update rule -/

/-- C1: one invocation of `update_parameters_velocity` transforms every
layer's moment accumulators and parameters (weights and biases alike) by
exactly `velocity = β2·velocity + (1-β2)·gradient`,
`sq_velocity = β2·sq_velocity + (1-β2)·gradient²`, and
`param = param - learning_rate · (velocity/(1-β1^t)) / sqrt(sq_velocity/(1-β2^t) + ε)`:
both moments decay with `β2`, the first-moment bias correction divides by
`1 - β1^t`, the step multiplies by the raw `learning_rate`, and the
returned `alpha = learning_rate / (1 + decay_rate·epoch)` never feeds the
parameter step — the updated parameters are identical for every epoch. -/
theorem claim_C1_update_rule (L : ℕ) (p : ParamSet) (g : GradSet) (epoch : ℕ)
    (v sv : GradSet) (t : ℕ) (β1 β2 ε lr decay : ℝ) (i r c : ℕ)
    (hi1 : 1 ≤ i) (hiL : i ≤ L) (_ht : 1 ≤ t) :
    (((update_parameters_velocity L p g epoch v sv t β1 β2 ε lr decay).2.2.1.dW i).entry r c =
      β2 * (v.dW i).entry r c + (1 - β2) * (g.dW i).entry r c) ∧
    (((update_parameters_velocity L p g epoch v sv t β1 β2 ε lr decay).2.2.1.db i).entry r c =
      β2 * (v.db i).entry r c + (1 - β2) * (g.db i).entry r c) ∧
    (((update_parameters_velocity L p g epoch v sv t β1 β2 ε lr decay).2.2.2.dW i).entry r c =
      β2 * (sv.dW i).entry r c + (1 - β2) * (g.dW i).entry r c ^ 2) ∧
    (((update_parameters_velocity L p g epoch v sv t β1 β2 ε lr decay).2.2.2.db i).entry r c =
      β2 * (sv.db i).entry r c + (1 - β2) * (g.db i).entry r c ^ 2) ∧
    (((update_parameters_velocity L p g epoch v sv t β1 β2 ε lr decay).1.W i).entry r c =
      (p.W i).entry r c -
        lr * ((β2 * (v.dW i).entry r c + (1 - β2) * (g.dW i).entry r c) / (1 - β1 ^ t)) /
          Real.sqrt
            ((β2 * (sv.dW i).entry r c + (1 - β2) * (g.dW i).entry r c ^ 2) / (1 - β2 ^ t)
              + ε)) ∧
    (((update_parameters_velocity L p g epoch v sv t β1 β2 ε lr decay).1.b i).entry r c =
      (p.b i).entry r c -
        lr * ((β2 * (v.db i).entry r c + (1 - β2) * (g.db i).entry r c) / (1 - β1 ^ t)) /
          Real.sqrt
            ((β2 * (sv.db i).entry r c + (1 - β2) * (g.db i).entry r c ^ 2) / (1 - β2 ^ t)
              + ε)) ∧
    ((update_parameters_velocity L p g epoch v sv t β1 β2 ε lr decay).2.1 =
      lr / (1 + decay * (epoch : ℝ))) ∧
    (∀ epoch2 : ℕ,
      (update_parameters_velocity L p g epoch2 v sv t β1 β2 ε lr decay).1 =
        (update_parameters_velocity L p g epoch v sv t β1 β2 ε lr decay).1) := by
  have hir : 1 ≤ i ∧ i ≤ L := ⟨hi1, hiL⟩
  refine ⟨?_, ?_, ?_, ?_, ?_, ?_, ?_, fun epoch2 => rfl⟩
  all_goals
    simp [update_parameters_velocity, matAdd, matScale, matSub, matDivE, matDivScalar,
      matSqrtE, matAddConst, matSq, hir, mul_one_div, div_eq_mul_inv]

/-- Concrete instantiation of C1: a single 1×1 layer, gradient 1,
moments 0, parameters 2, `t = 1`, all hyperparameters 1/2 or 1. -/
theorem claim_C1_update_rule_witness :
    (((update_parameters_velocity 1 (cPS 2) (cGS 1) 0 (cGS 0) (cGS 0) 1
        (1/2) (1/2) 1 1 1).2.2.1.dW 1).entry 0 0 =
      1/2 * ((cGS 0).dW 1).entry 0 0 + (1 - 1/2) * ((cGS 1).dW 1).entry 0 0) ∧
    (((update_parameters_velocity 1 (cPS 2) (cGS 1) 0 (cGS 0) (cGS 0) 1
        (1/2) (1/2) 1 1 1).2.2.1.db 1).entry 0 0 =
      1/2 * ((cGS 0).db 1).entry 0 0 + (1 - 1/2) * ((cGS 1).db 1).entry 0 0) ∧
    (((update_parameters_velocity 1 (cPS 2) (cGS 1) 0 (cGS 0) (cGS 0) 1
        (1/2) (1/2) 1 1 1).2.2.2.dW 1).entry 0 0 =
      1/2 * ((cGS 0).dW 1).entry 0 0 + (1 - 1/2) * ((cGS 1).dW 1).entry 0 0 ^ 2) ∧
    (((update_parameters_velocity 1 (cPS 2) (cGS 1) 0 (cGS 0) (cGS 0) 1
        (1/2) (1/2) 1 1 1).2.2.2.db 1).entry 0 0 =
      1/2 * ((cGS 0).db 1).entry 0 0 + (1 - 1/2) * ((cGS 1).db 1).entry 0 0 ^ 2) ∧
    (((update_parameters_velocity 1 (cPS 2) (cGS 1) 0 (cGS 0) (cGS 0) 1
        (1/2) (1/2) 1 1 1).1.W 1).entry 0 0 =
      ((cPS 2).W 1).entry 0 0 -
        1 * ((1/2 * ((cGS 0).dW 1).entry 0 0 + (1 - 1/2) * ((cGS 1).dW 1).entry 0 0) /
            (1 - (1/2) ^ 1)) /
          Real.sqrt
            ((1/2 * ((cGS 0).dW 1).entry 0 0 + (1 - 1/2) * ((cGS 1).dW 1).entry 0 0 ^ 2) /
                (1 - (1/2) ^ 1) + 1)) ∧
    (((update_parameters_velocity 1 (cPS 2) (cGS 1) 0 (cGS 0) (cGS 0) 1
        (1/2) (1/2) 1 1 1).1.b 1).entry 0 0 =
      ((cPS 2).b 1).entry 0 0 -
        1 * ((1/2 * ((cGS 0).db 1).entry 0 0 + (1 - 1/2) * ((cGS 1).db 1).entry 0 0) /
            (1 - (1/2) ^ 1)) /
          Real.sqrt
            ((1/2 * ((cGS 0).db 1).entry 0 0 + (1 - 1/2) * ((cGS 1).db 1).entry 0 0 ^ 2) /
                (1 - (1/2) ^ 1) + 1)) ∧
    ((update_parameters_velocity 1 (cPS 2) (cGS 1) 0 (cGS 0) (cGS 0) 1
        (1/2) (1/2) 1 1 1).2.1 = 1 / (1 + 1 * ((0 : ℕ) : ℝ))) ∧
    (∀ epoch2 : ℕ,
      (update_parameters_velocity 1 (cPS 2) (cGS 1) epoch2 (cGS 0) (cGS 0) 1
          (1/2) (1/2) 1 1 1).1 =
        (update_parameters_velocity 1 (cPS 2) (cGS 1) 0 (cGS 0) (cGS 0) 1
          (1/2) (1/2) 1 1 1).1) :=
  claim_C1_update_rule 1 (cPS 2) (cGS 1) 0 (cGS 0) (cGS 0) 1 (1/2) (1/2) 1 1 1 1 0 0
    (le_refl 1) (le_refl 1) (le_refl 1)

/-! ## Claim C6: a zero-gradient step leaves parameters unchanged -/

/-- C6: one `update_parameters_velocity` step at `t = 1` with all-zero
gradients and the all-zero moment accumulators of `initialize_velocity`
leaves every parameter entry exactly unchanged (the step is exactly zero,
not merely below `1e-10`). -/
theorem claim_C6_zero_gradient_step (L : ℕ) (p : ParamSet) (epoch : ℕ)
    (β1 β2 ε lr decay : ℝ) (i r c : ℕ) :
    (((update_parameters_velocity L p (zeroGrads p) epoch
        (initialize_velocity L p).1 (initialize_velocity L p).2 1
        β1 β2 ε lr decay).1.W i).entry r c = (p.W i).entry r c) ∧
    (((update_parameters_velocity L p (zeroGrads p) epoch
        (initialize_velocity L p).1 (initialize_velocity L p).2 1
        β1 β2 ε lr decay).1.b i).entry r c = (p.b i).entry r c) := by
  constructor
  all_goals
    by_cases hir : 1 ≤ i ∧ i ≤ L
    · simp [update_parameters_velocity, initialize_velocity, zeroGrads, zerosLike,
        matAdd, matScale, matSub, matDivE, matDivScalar, matSqrtE, matAddConst, matSq, hir]
    · simp [update_parameters_velocity, hir]

/-! ## Claim C9: non-divisible batch partition fails at partition time -/

/-- C9: when the training sample count is not divisible by `batch_size`,
`multi_layer_network` fails at `np.split` time, returning nothing: no
forward pass, cost or parameter update is ever produced. -/
theorem claim_C9_nondivisible_batch (X : Mat) (Y : List ℤ) (B0 : Mat) (vY : List ℤ)
    (init : ParamSet) (L E : ℕ) (lr decay : ℝ) (bs : ℕ)
    (h : X.cols % bs ≠ 0) :
    multi_layer_network X Y B0 vY init L E lr decay bs = none := by
  unfold multi_layer_network npSplitCols
  rw [if_neg (by tauto)]

/-- Concrete instantiation of C9: three training columns, batch size two. -/
theorem claim_C9_nondivisible_batch_witness :
    multi_layer_network ⟨1, 3, fun _ _ => 0⟩ [0, 0, 0] (cMat 0) [0] (cPS 0) 1 1 1 1 2 =
      none :=
  claim_C9_nondivisible_batch ⟨1, 3, fun _ _ => 0⟩ [0, 0, 0] (cMat 0) [0] (cPS 0) 1 1 1 1 2
    (by decide)

/-! ## Claim C8: cost bookkeeping of the training loop -/

section TrainingLoopLemmas

variable (L nc : ℕ) (β1 β2 ε lr decay : ℝ) (B0 : Mat) (vY : List ℤ)
variable (batches : List (Mat × List ℤ))

/-- Splitting a run of the outer loop: `a + b` epochs from index `ii` are
`a` epochs from `ii` followed by `b` epochs from `ii + a`. -/
theorem runEpochs_add (a : ℕ) :
    ∀ (b ii : ℕ) (s : LoopState),
      runEpochs L nc β1 β2 ε lr decay B0 vY batches (a + b) ii s =
        runEpochs L nc β1 β2 ε lr decay B0 vY batches b (ii + a)
          (runEpochs L nc β1 β2 ε lr decay B0 vY batches a ii s) := by
  induction a with
  | zero =>
    intro b ii s
    simp [runEpochs]
  | succ a ih =>
    intro b ii s
    have hh : a + 1 + b = (a + b) + 1 := by omega
    rw [hh]
    show runEpochs L nc β1 β2 ε lr decay B0 vY batches (a + b) (ii + 1)
        (epochStep L nc β1 β2 ε lr decay B0 vY batches ii s) = _
    rw [ih b (ii + 1) (epochStep L nc β1 β2 ε lr decay B0 vY batches ii s)]
    show _ = runEpochs L nc β1 β2 ε lr decay B0 vY batches b (ii + (a + 1))
        (runEpochs L nc β1 β2 ε lr decay B0 vY batches a (ii + 1)
          (epochStep L nc β1 β2 ε lr decay B0 vY batches ii s))
    have hii : ii + 1 + a = ii + (a + 1) := by omega
    rw [hii]

/-- Peeling the last epoch off a run of the outer loop. -/
theorem runEpochs_succ_last (k ii : ℕ) (s : LoopState) :
    runEpochs L nc β1 β2 ε lr decay B0 vY batches (k + 1) ii s =
      epochStep L nc β1 β2 ε lr decay B0 vY batches (ii + k)
        (runEpochs L nc β1 β2 ε lr decay B0 vY batches k ii s) :=
  runEpochs_add L nc β1 β2 ε lr decay B0 vY batches k 1 ii s

/-- Each epoch appends exactly one training cost. -/
theorem runEpochs_costs_length (k : ℕ) :
    ∀ (ii : ℕ) (s : LoopState),
      (runEpochs L nc β1 β2 ε lr decay B0 vY batches k ii s).costs.length =
        s.costs.length + k := by
  induction k with
  | zero =>
    intro ii s
    rfl
  | succ k ih =>
    intro ii s
    show (runEpochs L nc β1 β2 ε lr decay B0 vY batches k (ii + 1)
        (epochStep L nc β1 β2 ε lr decay B0 vY batches ii s)).costs.length = _
    rw [ih (ii + 1) (epochStep L nc β1 β2 ε lr decay B0 vY batches ii s)]
    have hlen : (epochStep L nc β1 β2 ε lr decay B0 vY batches ii s).costs.length =
        s.costs.length + 1 := by
      simp [epochStep]
    rw [hlen]
    omega

/-- Each epoch appends exactly one validation cost. -/
theorem runEpochs_vcosts_length (k : ℕ) :
    ∀ (ii : ℕ) (s : LoopState),
      (runEpochs L nc β1 β2 ε lr decay B0 vY batches k ii s).vcosts.length =
        s.vcosts.length + k := by
  induction k with
  | zero =>
    intro ii s
    rfl
  | succ k ih =>
    intro ii s
    show (runEpochs L nc β1 β2 ε lr decay B0 vY batches k (ii + 1)
        (epochStep L nc β1 β2 ε lr decay B0 vY batches ii s)).vcosts.length = _
    rw [ih (ii + 1) (epochStep L nc β1 β2 ε lr decay B0 vY batches ii s)]
    have hlen : (epochStep L nc β1 β2 ε lr decay B0 vY batches ii s).vcosts.length =
        s.vcosts.length + 1 := by
      simp [epochStep]
    rw [hlen]
    omega

/-- Training-cost entries already recorded are never rewritten by later
epochs. -/
theorem runEpochs_costs_getD_stable (k : ℕ) :
    ∀ (ii m : ℕ) (s : LoopState), m < s.costs.length →
      (runEpochs L nc β1 β2 ε lr decay B0 vY batches k ii s).costs.getD m 0 =
        s.costs.getD m 0 := by
  induction k with
  | zero =>
    intro ii m s _
    rfl
  | succ k ih =>
    intro ii m s hm
    show (runEpochs L nc β1 β2 ε lr decay B0 vY batches k (ii + 1)
        (epochStep L nc β1 β2 ε lr decay B0 vY batches ii s)).costs.getD m 0 = _
    rw [ih (ii + 1) m (epochStep L nc β1 β2 ε lr decay B0 vY batches ii s)
      (by show m < (s.costs ++ [_]).length; rw [List.length_append]; omega)]
    show (s.costs ++ [_]).getD m 0 = s.costs.getD m 0
    exact List.getD_append _ _ _ _ hm

/-- Validation-cost entries already recorded are never rewritten by later
epochs. -/
theorem runEpochs_vcosts_getD_stable (k : ℕ) :
    ∀ (ii m : ℕ) (s : LoopState), m < s.vcosts.length →
      (runEpochs L nc β1 β2 ε lr decay B0 vY batches k ii s).vcosts.getD m 0 =
        s.vcosts.getD m 0 := by
  induction k with
  | zero =>
    intro ii m s _
    rfl
  | succ k ih =>
    intro ii m s hm
    show (runEpochs L nc β1 β2 ε lr decay B0 vY batches k (ii + 1)
        (epochStep L nc β1 β2 ε lr decay B0 vY batches ii s)).vcosts.getD m 0 = _
    rw [ih (ii + 1) m (epochStep L nc β1 β2 ε lr decay B0 vY batches ii s)
      (by show m < (s.vcosts ++ [_]).length; rw [List.length_append]; omega)]
    show (s.vcosts ++ [_]).getD m 0 = s.vcosts.getD m 0
    exact List.getD_append _ _ _ _ hm

/-- Appending a final batch to the inner loop is one extra `batchStep` on
the fold's result. -/
theorem runBatches_concat (ii : ℕ) (init : LoopCore × ℝ) (l : List (Mat × List ℤ))
    (b : Mat × List ℤ) :
    runBatches L nc β1 β2 ε lr decay ii init (l ++ [b]) =
      batchStep L nc β1 β2 ε lr decay ii
        (runBatches L nc β1 β2 ε lr decay ii init l).1 b.1 b.2 := by
  unfold runBatches
  rw [List.foldl_append]
  rfl

/-- The training cost produced by a batch step is the softmax
cross-entropy loss of that batch's forward pass under the parameters held
when the step begins. -/
theorem batchStep_cost (ii : ℕ) (s : LoopCore) (Xb : Mat) (Yb : List ℤ) :
    (batchStep L nc β1 β2 ε lr decay ii s Xb Yb).2 =
      celLoss (multi_layer_forward L Xb s.params).1 nc Yb :=
  rfl

end TrainingLoopLemmas

/-- A nonempty list is its `dropLast` followed by its last element. -/
theorem dropLast_append_getLastD {α : Type} [Inhabited α] (l : List α) (h : l ≠ []) :
    l.dropLast ++ [l.getLastD default] = l := by
  induction l using List.reverseRecOn with
  | nil => exact absurd rfl h
  | append_singleton as a _ => simp

/-- C8: on a run with `E` epochs whose batch partition succeeds and is
nonempty, `multi_layer_network` returns cost lists of length exactly `E`;
the training entry of epoch `ii` is the cross-entropy loss of the forward
pass of the LAST mini-batch under the parameters reached after the earlier
batches of that epoch (not an average), the validation entry is the loss
of one full forward pass over the whole validation set under the
parameters reached after all of that epoch's batches, and the state
entering the next epoch carries exactly those parameters — the validation
pass updates nothing. -/
theorem claim_C8_training_loop (X : Mat) (Y : List ℤ) (B0 : Mat) (vY : List ℤ)
    (init : ParamSet) (L E : ℕ) (lr decay : ℝ) (bs : ℕ)
    (Xb : List Mat) (Yb : List (List ℤ))
    (hX : npSplitCols X bs = some Xb) (hY : npSplitLabels Y bs = some Yb)
    (hne : Xb.zip Yb ≠ []) :
    multi_layer_network X Y B0 vY init L E lr decay bs =
      some ((mlnStateAt L lr decay B0 vY (Xb.zip Yb) init E).costs,
        (mlnStateAt L lr decay B0 vY (Xb.zip Yb) init E).core.params,
        (mlnStateAt L lr decay B0 vY (Xb.zip Yb) init E).vcosts) ∧
    (mlnStateAt L lr decay B0 vY (Xb.zip Yb) init E).costs.length = E ∧
    (mlnStateAt L lr decay B0 vY (Xb.zip Yb) init E).vcosts.length = E ∧
    (∀ ii, ii < E →
      (mlnStateAt L lr decay B0 vY (Xb.zip Yb) init E).costs.getD ii 0 =
        celLoss
          (multi_layer_forward L ((Xb.zip Yb).getLastD default).1
            (epochBatchRun L lr decay ii (mlnStateAt L lr decay B0 vY (Xb.zip Yb) init ii)
              (Xb.zip Yb).dropLast).1.params).1
          10 ((Xb.zip Yb).getLastD default).2 ∧
      (mlnStateAt L lr decay B0 vY (Xb.zip Yb) init E).vcosts.getD ii 0 =
        celLoss
          (multi_layer_forward L B0
            (epochBatchRun L lr decay ii (mlnStateAt L lr decay B0 vY (Xb.zip Yb) init ii)
              (Xb.zip Yb)).1.params).1
          10 vY ∧
      (mlnStateAt L lr decay B0 vY (Xb.zip Yb) init (ii + 1)).core =
        (epochBatchRun L lr decay ii (mlnStateAt L lr decay B0 vY (Xb.zip Yb) init ii)
          (Xb.zip Yb)).1) := by
  refine ⟨?_, ?_, ?_, ?_⟩
  · unfold multi_layer_network
    rw [hX, hY]
    rfl
  · show (runEpochs L 10 0.9 0.999 1e-8 lr decay B0 vY (Xb.zip Yb) E 0
        (mlnInitState L init)).costs.length = E
    rw [runEpochs_costs_length]
    simp [mlnInitState]
  · show (runEpochs L 10 0.9 0.999 1e-8 lr decay B0 vY (Xb.zip Yb) E 0
        (mlnInitState L init)).vcosts.length = E
    rw [runEpochs_vcosts_length]
    simp [mlnInitState]
  · intro ii hii
    have hsucc : mlnStateAt L lr decay B0 vY (Xb.zip Yb) init (ii + 1) =
        epochStep L 10 0.9 0.999 1e-8 lr decay B0 vY (Xb.zip Yb) ii
          (mlnStateAt L lr decay B0 vY (Xb.zip Yb) init ii) := by
      show runEpochs L 10 0.9 0.999 1e-8 lr decay B0 vY (Xb.zip Yb) (ii + 1) 0
          (mlnInitState L init) = _
      rw [runEpochs_succ_last, Nat.zero_add]
      rfl
    have hlen_ii : (mlnStateAt L lr decay B0 vY (Xb.zip Yb) init ii).costs.length = ii := by
      show (runEpochs L 10 0.9 0.999 1e-8 lr decay B0 vY (Xb.zip Yb) ii 0
          (mlnInitState L init)).costs.length = ii
      rw [runEpochs_costs_length]
      simp [mlnInitState]
    have hvlen_ii : (mlnStateAt L lr decay B0 vY (Xb.zip Yb) init ii).vcosts.length = ii := by
      show (runEpochs L 10 0.9 0.999 1e-8 lr decay B0 vY (Xb.zip Yb) ii 0
          (mlnInitState L init)).vcosts.length = ii
      rw [runEpochs_vcosts_length]
      simp [mlnInitState]
    have hlen_s1 : (mlnStateAt L lr decay B0 vY (Xb.zip Yb) init (ii + 1)).costs.length =
        ii + 1 := by
      show (runEpochs L 10 0.9 0.999 1e-8 lr decay B0 vY (Xb.zip Yb) (ii + 1) 0
          (mlnInitState L init)).costs.length = ii + 1
      rw [runEpochs_costs_length]
      simp [mlnInitState]
    have hvlen_s1 : (mlnStateAt L lr decay B0 vY (Xb.zip Yb) init (ii + 1)).vcosts.length =
        ii + 1 := by
      show (runEpochs L 10 0.9 0.999 1e-8 lr decay B0 vY (Xb.zip Yb) (ii + 1) 0
          (mlnInitState L init)).vcosts.length = ii + 1
      rw [runEpochs_vcosts_length]
      simp [mlnInitState]
    have hE : ii + 1 + (E - (ii + 1)) = E := by omega
    have hsplit : mlnStateAt L lr decay B0 vY (Xb.zip Yb) init E =
        runEpochs L 10 0.9 0.999 1e-8 lr decay B0 vY (Xb.zip Yb) (E - (ii + 1))
          (0 + (ii + 1)) (mlnStateAt L lr decay B0 vY (Xb.zip Yb) init (ii + 1)) := by
      show runEpochs L 10 0.9 0.999 1e-8 lr decay B0 vY (Xb.zip Yb) E 0
          (mlnInitState L init) = _
      conv_lhs => rw [← hE]
      rw [runEpochs_add]
      rfl
    have hBdec : (Xb.zip Yb).dropLast ++ [(Xb.zip Yb).getLastD default] = Xb.zip Yb :=
      dropLast_append_getLastD (Xb.zip Yb) hne
    have hrb0 : ∀ s : LoopState, epochBatchRun L lr decay ii s (Xb.zip Yb) =
        batchStep L 10 0.9 0.999 1e-8 lr decay ii
          (epochBatchRun L lr decay ii s (Xb.zip Yb).dropLast).1
          ((Xb.zip Yb).getLastD default).1 ((Xb.zip Yb).getLastD default).2 := by
      intro s
      conv_lhs => rw [← hBdec]
      show runBatches L 10 0.9 0.999 1e-8 lr decay ii (s.core, s.lastCost)
          ((Xb.zip Yb).dropLast ++ [(Xb.zip Yb).getLastD default]) =
        batchStep L 10 0.9 0.999 1e-8 lr decay ii
          (runBatches L 10 0.9 0.999 1e-8 lr decay ii (s.core, s.lastCost)
            (Xb.zip Yb).dropLast).1
          ((Xb.zip Yb).getLastD default).1 ((Xb.zip Yb).getLastD default).2
      exact runBatches_concat L 10 0.9 0.999 1e-8 lr decay ii (s.core, s.lastCost)
        (Xb.zip Yb).dropLast ((Xb.zip Yb).getLastD default)
    have hrb := hrb0 (mlnStateAt L lr decay B0 vY (Xb.zip Yb) init ii)
    refine ⟨?_, ?_, ?_⟩
    · have h1 : (mlnStateAt L lr decay B0 vY (Xb.zip Yb) init E).costs.getD ii 0 =
          (mlnStateAt L lr decay B0 vY (Xb.zip Yb) init (ii + 1)).costs.getD ii 0 := by
        rw [hsplit]
        exact runEpochs_costs_getD_stable L 10 0.9 0.999 1e-8 lr decay B0 vY (Xb.zip Yb)
          (E - (ii + 1)) (0 + (ii + 1)) ii
          (mlnStateAt L lr decay B0 vY (Xb.zip Yb) init (ii + 1))
          (by rw [hlen_s1]; omega)
      have h2 : (mlnStateAt L lr decay B0 vY (Xb.zip Yb) init (ii + 1)).costs.getD ii 0 =
          (epochBatchRun L lr decay ii (mlnStateAt L lr decay B0 vY (Xb.zip Yb) init ii)
            (Xb.zip Yb)).2 := by
        rw [hsucc]
        show ((mlnStateAt L lr decay B0 vY (Xb.zip Yb) init ii).costs ++
            [(epochBatchRun L lr decay ii (mlnStateAt L lr decay B0 vY (Xb.zip Yb) init ii)
              (Xb.zip Yb)).2]).getD ii 0 = _
        rw [List.getD_append_right _ _ _ _ hlen_ii.le, hlen_ii]
        simp
      have h3 : (epochBatchRun L lr decay ii (mlnStateAt L lr decay B0 vY (Xb.zip Yb) init ii)
          (Xb.zip Yb)).2 =
          celLoss
            (multi_layer_forward L ((Xb.zip Yb).getLastD default).1
              (epochBatchRun L lr decay ii (mlnStateAt L lr decay B0 vY (Xb.zip Yb) init ii)
                (Xb.zip Yb).dropLast).1.params).1
            10 ((Xb.zip Yb).getLastD default).2 := by
        rw [hrb]
        exact batchStep_cost L 10 0.9 0.999 1e-8 lr decay ii
          (epochBatchRun L lr decay ii (mlnStateAt L lr decay B0 vY (Xb.zip Yb) init ii)
            (Xb.zip Yb).dropLast).1
          ((Xb.zip Yb).getLastD default).1 ((Xb.zip Yb).getLastD default).2
      exact h1.trans (h2.trans h3)
    · have h1 : (mlnStateAt L lr decay B0 vY (Xb.zip Yb) init E).vcosts.getD ii 0 =
          (mlnStateAt L lr decay B0 vY (Xb.zip Yb) init (ii + 1)).vcosts.getD ii 0 := by
        rw [hsplit]
        exact runEpochs_vcosts_getD_stable L 10 0.9 0.999 1e-8 lr decay B0 vY (Xb.zip Yb)
          (E - (ii + 1)) (0 + (ii + 1)) ii
          (mlnStateAt L lr decay B0 vY (Xb.zip Yb) init (ii + 1))
          (by rw [hvlen_s1]; omega)
      have h2 : (mlnStateAt L lr decay B0 vY (Xb.zip Yb) init (ii + 1)).vcosts.getD ii 0 =
          celLoss
            (multi_layer_forward L B0
              (epochBatchRun L lr decay ii (mlnStateAt L lr decay B0 vY (Xb.zip Yb) init ii)
                (Xb.zip Yb)).1.params).1
            10 vY := by
        rw [hsucc]
        show ((mlnStateAt L lr decay B0 vY (Xb.zip Yb) init ii).vcosts ++
            [celLoss
              (multi_layer_forward L B0
                (epochBatchRun L lr decay ii (mlnStateAt L lr decay B0 vY (Xb.zip Yb) init ii)
                  (Xb.zip Yb)).1.params).1
              10 vY]).getD ii 0 = _
        rw [List.getD_append_right _ _ _ _ hvlen_ii.le, hvlen_ii]
        simp
      exact h1.trans h2
    · rw [hsucc]
      rfl


/-- Concrete instantiation of C8: one epoch, one batch of one sample, a
single 1×1 layer. -/
theorem claim_C8_training_loop_witness :
    multi_layer_network wMat [0] (cMat 0) [0] (cPS 0) 1 1 1 1 1 =
      some ((mlnStateAt 1 1 1 (cMat 0) [0] ([wMat].zip [[0]]) (cPS 0) 1).costs,
        (mlnStateAt 1 1 1 (cMat 0) [0] ([wMat].zip [[0]]) (cPS 0) 1).core.params,
        (mlnStateAt 1 1 1 (cMat 0) [0] ([wMat].zip [[0]]) (cPS 0) 1).vcosts) ∧
    (mlnStateAt 1 1 1 (cMat 0) [0] ([wMat].zip [[0]]) (cPS 0) 1).costs.length = 1 ∧
    (mlnStateAt 1 1 1 (cMat 0) [0] ([wMat].zip [[0]]) (cPS 0) 1).vcosts.length = 1 ∧
    (∀ ii, ii < 1 →
      (mlnStateAt 1 1 1 (cMat 0) [0] ([wMat].zip [[0]]) (cPS 0) 1).costs.getD ii 0 =
        celLoss
          (multi_layer_forward 1 (([wMat].zip [[0]]).getLastD default).1
            (epochBatchRun 1 1 1 ii
              (mlnStateAt 1 1 1 (cMat 0) [0] ([wMat].zip [[0]]) (cPS 0) ii)
              ([wMat].zip [[0]]).dropLast).1.params).1
          10 (([wMat].zip [[0]]).getLastD default).2 ∧
      (mlnStateAt 1 1 1 (cMat 0) [0] ([wMat].zip [[0]]) (cPS 0) 1).vcosts.getD ii 0 =
        celLoss
          (multi_layer_forward 1 (cMat 0)
            (epochBatchRun 1 1 1 ii
              (mlnStateAt 1 1 1 (cMat 0) [0] ([wMat].zip [[0]]) (cPS 0) ii)
              ([wMat].zip [[0]])).1.params).1
          10 [0] ∧
      (mlnStateAt 1 1 1 (cMat 0) [0] ([wMat].zip [[0]]) (cPS 0) (ii + 1)).core =
        (epochBatchRun 1 1 1 ii
          (mlnStateAt 1 1 1 (cMat 0) [0] ([wMat].zip [[0]]) (cPS 0) ii)
          ([wMat].zip [[0]])).1) :=
  claim_C8_training_loop wMat [0] (cMat 0) [0] (cPS 0) 1 1 1 1 1 [wMat] [[0]]
    rfl rfl (by simp)

end
